import Mathlib

/-!
Verification development for the polimi-course-advisor repository.

The recommendation engine (similarity-graph builder, ranking engine and
graph-view projector, described in the specification sections 2 to 4) lives in
the Python backend (`backend/core/graph.py` and friends), whose sources are not
part of the checked-out tree; only its callers, wire-type declarations and
documentation are.  Those engine operations are therefore modelled from the
specification text, as marked in the doc comments below.  The frontend pieces
(wire types in `frontend/src/types/chat.ts`, the `GraphPanel` score scaling and
the chat send path in `ChatPane`/`App.tsx`) are embedded directly from the
TypeScript sources.  Scores (JavaScript numbers) are modelled as rationals.
-/

namespace Advisor

/-- A stable, structurally recursive insertion of an element into a list that
is sorted by the boolean comparator `le`; used to embed the deterministic
sorting steps of the engine ("edges are generated in a stable order", "top-K
courses by descending score, ties broken by ascending course code"). -/
def insertLe (le : α → α → Bool) (a : α) : List α → List α
  | [] => [a]
  | b :: bs => if le a b then a :: b :: bs else b :: insertLe le a bs

/-- Stable insertion sort by a boolean comparator. -/
def sortByLe (le : α → α → Bool) : List α → List α
  | [] => []
  | a :: as => insertLe le a (sortByLe le as)

/-- All ordered pairs (earlier element first) of a list. -/
def orderedPairs : List α → List (α × α)
  | [] => []
  | x :: xs => xs.map (fun y => (x, y)) ++ orderedPairs xs

/-- Modelled from the spec: the immutable Course record of the data model
(unique code, name, credit value, language, group, semester, free-text
description/keyword set); the backend catalogue loader is not in the sources. -/
structure Course where
  code : String
  name : String
  cfu : ℚ
  semester : Nat
  language : String
  group : String
  keywords : List String
deriving DecidableEq

/-- Modelled from the spec: a typed reason entry `{type, value, contribution}`
attached to a similarity edge; the backend graph builder is not in the
sources. -/
structure EdgeReason where
  rtype : String
  value : String
  contribution : ℚ
deriving DecidableEq

/-- Modelled from the spec: an undirected similarity edge between two course
codes with a weight in [0,1] and its reason list; the backend graph builder is
not in the sources. -/
structure Edge where
  a : String
  b : String
  weight : ℚ
  reasons : List EdgeReason
deriving DecidableEq

/-- Modelled from the spec: the course similarity graph (all catalogue courses
as nodes, including zero-degree ones, plus the aggregated similarity edges);
the backend graph builder is not in the sources. -/
structure Graph where
  courses : List Course
  edges : List Edge
deriving DecidableEq

/-- Modelled from the spec: the StudentProfile value object (interests,
avoid-list, goals, language preference, workload tolerance, preferred exam
types, liked/disliked course codes, all optional); mirrors the wire interface
in `frontend/src/types/chat.ts`. -/
structure StudentProfile where
  interests : List String := []
  avoid : List String := []
  goals : List String := []
  language_preference : Option String := none
  workload_tolerance : Option String := none
  preferred_exam_types : List String := []
  liked_courses : List String := []
  disliked_courses : List String := []
deriving DecidableEq

/-- Modelled from the spec: a Course projected with its relevance score
(RankedCourse, derived and never stored); the backend ranking engine is not in
the sources. -/
structure RankedCourse where
  code : String
  name : String
  cfu : ℚ
  semester : Nat
  language : String
  group : String
  score : ℚ
deriving DecidableEq

/-- Modelled from the spec: a GraphView node (course code, label, score,
"is recommended" flag, group); the backend projector is not in the sources. -/
structure ViewNode where
  code : String
  label : String
  score : ℚ
  is_recommended : Bool
  group : String
deriving DecidableEq

/-- Modelled from the spec: a GraphView edge (source, target, weight, concepts,
reasons); the backend projector is not in the sources. -/
structure ViewEdge where
  source : String
  target : String
  weight : ℚ
  concepts : List String
  reasons : List EdgeReason
deriving DecidableEq

/-- Modelled from the spec: the read-only GraphView projection handed to the
frontend; the backend projector is not in the sources. -/
structure GraphView where
  nodes : List ViewNode
  edges : List ViewEdge
deriving DecidableEq

/-- Modelled from the spec: the keyword tokens shared by the free text of two
courses (the "shared keyword tokens" similarity signal). -/
def sharedKeywords (c1 c2 : Course) : List String :=
  c1.keywords.filter (fun k => decide (k ∈ c2.keywords))

/-- Modelled from the spec: the minimum aggregate weight below which a pair is
omitted from the graph (sparsity control); the concrete value follows the
spec's example scale. -/
def minEdgeWeight : ℚ := 1 / 10

/-- Modelled from the spec: the contribution of a single shared keyword. -/
def keywordUnit : ℚ := 1 / 10

/-- Modelled from the spec: the similarity signals fired by a pair of courses,
each yielding a reason entry `{type, value, contribution}` (shared keyword
tokens, same group, same semester, same language). -/
def signals (c1 c2 : Course) : List EdgeReason :=
  (if sharedKeywords c1 c2 = [] then []
   else [⟨"shared_keyword", String.intercalate ", " (sharedKeywords c1 c2),
          ((sharedKeywords c1 c2).length : ℚ) * keywordUnit⟩])
  ++ (if c1.group = c2.group then [⟨"same_group", c1.group, 3 / 10⟩] else [])
  ++ (if c1.semester = c2.semester then
        [⟨"same_semester", toString c1.semester, 1 / 10⟩] else [])
  ++ (if c1.language = c2.language then
        [⟨"same_language", c1.language, 1 / 10⟩] else [])

/-- Modelled from the spec: contributions for the same pair are summed into one
edge weight, clipped to a maximum of 1.0. -/
def edgeWeight (rs : List EdgeReason) : ℚ :=
  if 1 ≤ (rs.map EdgeReason.contribution).sum then 1
  else (rs.map EdgeReason.contribution).sum

/-- Modelled from the spec: the stable course order in which edges are
generated (ascending course code). -/
def codeLe (c1 c2 : Course) : Bool := decide (c1.code ≤ c2.code)

/-- Modelled from the spec: the edge (if any) produced by one ordered pair of
courses — the fired signals aggregated into one weight and reason list, the
pair omitted when the aggregate weight is below the minimum threshold. -/
def pairEdge (pr : Course × Course) : Option Edge :=
  if edgeWeight (signals pr.1 pr.2) < minEdgeWeight then none
  else some ⟨pr.1.code, pr.2.code, edgeWeight (signals pr.1 pr.2), signals pr.1 pr.2⟩

/-- Modelled from the spec: `buildGraph(courses) -> Graph`.  Edges are
generated in a stable order (ascending pair of codes), one edge per unordered
pair with the fired signals aggregated into its weight and reason list; pairs
whose aggregate weight is below the minimum threshold are omitted; isolated
courses are retained as zero-degree nodes.  The backend implementation
(`backend/core/graph.py`) is not in the sources. -/
def buildGraph (courses : List Course) : Graph :=
  ⟨courses, (orderedPairs (sortByLe codeLe courses)).filterMap pairEdge⟩

/-- Modelled from the spec: the profile terms are matched against the course's
text and group. -/
def courseText (c : Course) : List String := c.keywords ++ [c.group]

/-- Modelled from the spec: the number of profile terms that overlap the
course's text. -/
def overlapCount (terms keywords : List String) : Nat :=
  (terms.filter (fun t => decide (t ∈ keywords))).length

/-- Modelled from the spec: workload-tolerance alignment between a profile and
a course's credit load. -/
def workloadAligned (w : String) (cfu : ℚ) : Prop :=
  (w = "low" ∧ cfu ≤ 5) ∨ w = "medium" ∨ (w = "high" ∧ 5 ≤ cfu)

instance (w : String) (cfu : ℚ) : Decidable (workloadAligned w cfu) := by
  unfold workloadAligned; infer_instance

/-- Modelled from the spec: stage-1 direct match score of a course against the
profile — positive contributions for interest/goal/liked-course overlap,
negative for avoid overlap, a bonus/penalty for language and workload
alignment when populated, floored at 0.  The backend ranking engine is not in
the sources. -/
def seedRaw (p : StudentProfile) (c : Course) : ℚ :=
  let pos := (overlapCount p.interests (courseText c) : ℚ) * (3 / 10)
      + (overlapCount p.goals (courseText c) : ℚ) * (2 / 10)
      + (if c.code ∈ p.liked_courses then (5 : ℚ) / 10 else 0)
  let neg := (overlapCount p.avoid (courseText c) : ℚ) * (3 / 10)
  let lang := match p.language_preference with
    | none => (0 : ℚ)
    | some lp => if lp = "ANY" ∨ lp = c.language then 1 / 10 else -(1 / 10)
  let wl := match p.workload_tolerance with
    | none => (0 : ℚ)
    | some w => if workloadAligned w c.cfu then 1 / 10 else -(1 / 10)
  let s := pos - neg + lang + wl
  if s < 0 then 0 else s

/-- Modelled from the spec: total raw seed mass over the catalogue. -/
def seedTotal (p : StudentProfile) (g : Graph) : ℚ :=
  (g.courses.map (seedRaw p)).sum

/-- Modelled from the spec: the uniform seed used as fallback for an empty
profile (pure graph centrality, equivalent to plain PageRank). -/
def uniformSeed (g : Graph) : String → ℚ :=
  fun _ => 1 / (g.courses.length : ℚ)

/-- Modelled from the spec: the normalized seed vector over courses; when no
profile field contributes (total mass zero) it falls back to the uniform
seed. -/
def seedVec (p : StudentProfile) (g : Graph) : String → ℚ :=
  if seedTotal p g = 0 then uniformSeed g
  else fun v =>
    match g.courses.find? (fun c => decide (c.code = v)) with
    | some c => seedRaw p c / seedTotal p g
    | none => 0

/-- Modelled from the spec: the damping factor d of the personalized-PageRank
diffusion (the spec's example value 0.85). -/
def damping : ℚ := 17 / 20

/-- Modelled from the spec: the fixed diffusion iteration count (the spec's
example bound of 100 iterations). -/
def iterationCount : Nat := 100

/-- Modelled from the spec: total edge weight incident to a node, used to
redistribute a node's score to its neighbors proportionally to edge weight. -/
def weightedDegree (g : Graph) (v : String) : ℚ :=
  (g.edges.map (fun e => if e.a = v ∨ e.b = v then e.weight else 0)).sum

/-- Modelled from the spec: the score mass flowing into node `v` along the
undirected edges in one diffusion step. -/
def inflow (g : Graph) (x : String → ℚ) (v : String) : ℚ :=
  (g.edges.map (fun e =>
    if e.b = v then x e.a * e.weight / weightedDegree g e.a
    else if e.a = v then x e.b * e.weight / weightedDegree g e.b
    else 0)).sum

/-- Modelled from the spec: one personalized-PageRank step — a damping factor
controls how much score is teleported back to the seed distribution versus
propagated along edges. -/
def diffusionStep (g : Graph) (seed x : String → ℚ) : String → ℚ :=
  fun v => (1 - damping) * seed v + damping * inflow g x v

/-- Modelled from the spec: the converged propagation values, iterated a fixed
number of times from the seed distribution. -/
def pageRank (g : Graph) (seed : String → ℚ) : String → ℚ :=
  Nat.iterate (diffusionStep g seed) iterationCount seed

/-- Modelled from the spec: projection of a course with its final score. -/
def mkRanked (c : Course) (s : ℚ) : RankedCourse :=
  ⟨c.code, c.name, c.cfu, c.semester, c.language, c.group, s⟩

/-- Modelled from the spec: the output comparator — descending score, ties
broken by ascending course code. -/
def rankLe (a b : RankedCourse) : Bool :=
  decide (b.score < a.score) || (decide (a.score = b.score) && decide (a.code ≤ b.code))

/-- Modelled from the spec: `rank(profile, graph, topK) -> RankedCourse[]` —
stage-1 seed relevance, graph propagation, then the top-K courses by
descending score with ties broken by ascending course code.  Disliked courses
are excluded outright (the explicit policy choice the spec requires).  The
backend ranking engine is not in the sources. -/
def rank (p : StudentProfile) (g : Graph) (topK : Nat) : List RankedCourse :=
  (sortByLe rankLe
    ((g.courses.filter (fun c => decide (c.code ∉ p.disliked_courses))).map
      (fun c => mkRanked c (pageRank g (seedVec p g) c.code)))).take topK

/-- Modelled from the spec: plain unpersonalized PageRank ordering of the
graph — every course scored by the diffusion started from the uniform seed,
sorted by descending score with ties broken by ascending course code.  This
definition follows the spec's words for the empty-profile fallback and is the
reference point of the refinement claim. -/
def plainPageRankRanking (g : Graph) : List RankedCourse :=
  sortByLe rankLe
    (g.courses.map (fun c => mkRanked c (pageRank g (uniformSeed g) c.code)))

/-- Modelled from the spec: the direct graph neighbors (one hop) of the top-K
node set, rendered as view nodes flagged `is_recommended = false`.  Their
propagated score is not recoverable from the declared projector contract
inputs, so they carry score 0 here. -/
def neighborNodes (g : Graph) (topCodes : List String) : List ViewNode :=
  ((((g.edges.filter (fun e =>
      decide (e.a ∈ topCodes) || decide (e.b ∈ topCodes))).map
        (fun e => [e.a, e.b])).flatten).dedup.filter
    (fun v => decide (v ∉ topCodes))).filterMap (fun v =>
      (g.courses.find? (fun c => decide (c.code = v))).map
        (fun c => ViewNode.mk c.code c.name 0 false c.group))

/-- Modelled from the spec: the node set of the projected view — the top-K
ranked courses (flagged recommended, carrying their ranking score) together
with their direct graph neighbors (one hop). -/
def projectNodes (g : Graph) (ranked : List RankedCourse) (topK : Nat) :
    List ViewNode :=
  (ranked.take topK).map (fun rc => ViewNode.mk rc.code rc.name rc.score true rc.group)
    ++ neighborNodes g ((ranked.take topK).map RankedCourse.code)

/-- Modelled from the spec: the edge set of the projected view — every graph
edge whose both endpoints are in the node set. -/
def projectEdges (g : Graph) (nodeCodes : List String) : List ViewEdge :=
  (g.edges.filter (fun e =>
      decide (e.a ∈ nodeCodes) && decide (e.b ∈ nodeCodes))).map
    (fun e => ViewEdge.mk e.a e.b e.weight (e.reasons.map EdgeReason.value) e.reasons)

/-- Modelled from the spec: `project(graph, ranked, topK) -> GraphView` — node
set is the top-K ranked courses plus their direct graph neighbors (one hop),
edge set is every graph edge with both endpoints in the node set.  The backend
projector is not in the sources. -/
def project (g : Graph) (ranked : List RankedCourse) (topK : Nat) : GraphView :=
  ⟨projectNodes g ranked topK,
   projectEdges g ((projectNodes g ranked topK).map ViewNode.code)⟩

end Advisor

namespace Wire

/-- A small universe of TypeScript wire-level field types, used to transliterate
the interface declarations of `frontend/src/types/chat.ts` and
`frontend/src/components/GraphPanel.tsx`. -/
inductive WireTy where
  | str : WireTy
  | num : WireTy
  | boolTy : WireTy
  | nullable : WireTy → WireTy
  | opt : WireTy → WireTy
  | arr : WireTy → WireTy
  | record : List (String × WireTy) → WireTy

/-- Embedded from `frontend/src/types/chat.ts` (interface RankedCourse): the
declared wire fields of a ranked course, in declaration order.  The trailing
index signature of the interface (which merely tolerates unknown extra backend
fields) is not a declared field and is not listed. -/
def rankedCourseFields : List (String × WireTy) :=
  [("code", .str), ("name", .str), ("cfu", .num), ("semester", .num),
   ("language", .str), ("group", .str), ("score", .num),
   ("explanation", .opt .str)]

/-- Embedded from `frontend/src/types/chat.ts` (interface GraphNode). -/
def graphNodeFields : List (String × WireTy) :=
  [("code", .str), ("label", .str), ("score", .num),
   ("is_recommended", .boolTy), ("group", .nullable .str)]

/-- Embedded from `frontend/src/types/chat.ts` (interface GraphEdge): note that
the `reasons` field is declared as `string[]`. -/
def graphEdgeFields : List (String × WireTy) :=
  [("source", .str), ("target", .str), ("weight", .num),
   ("concepts", .arr .str), ("reasons", .arr .str)]

/-- Embedded from `frontend/src/components/GraphPanel.tsx` (interface
ExtendedGraphLink): the element type of its `reasons` field, the record
`{ type: string; value: string; contribution: number }` that the component
reads off every incoming reason. -/
def extendedLinkReasonTy : WireTy :=
  .record [("type", .str), ("value", .str), ("contribution", .num)]

/-- Look up the declared type of a field in a transliterated interface. -/
def lookupField (name : String) (fs : List (String × WireTy)) : Option WireTy :=
  (fs.find? (fun f => decide (f.1 = name))).map Prod.snd

end Wire

namespace Frontend

/-- Whitespace recognizer of the JavaScript `String.prototype.trim` runtime
primitive, restricted to the ASCII whitespace characters that can occur in the
embedded inputs. -/
def isJsSpace (c : Char) : Bool :=
  c = ' ' || c = '\t' || c = '\n' || c = '\r'

/-- Model of the JavaScript `String.prototype.trim` runtime primitive used by
`ChatPane.handleSubmit` and `App.handleSendMessage`. -/
def jsTrim (s : String) : String :=
  ⟨((s.data.dropWhile isJsSpace).reverse.dropWhile isJsSpace).reverse⟩

/-- Embedded from `frontend/src/types/chat.ts` (interface ChatMessage). -/
structure ChatMessage where
  role : String
  content : String
deriving DecidableEq

/-- Embedded from `frontend/src/App.tsx`: the component state the send path
reads and writes (messages, loading flag, backend status, error banner). -/
structure AppState where
  messages : List ChatMessage
  isLoading : Bool
  backendOnline : Option Bool
  error : Option String
deriving DecidableEq

/-- Embedded from `frontend/src/App.tsx` (handleSendMessage): returns the new
state together with the message list of the `postChat` request body, or `none`
when no chat request is issued. -/
def handleSendMessage (st : AppState) (text : String) :
    AppState × Option (List ChatMessage) :=
  if jsTrim text = "" then (st, none)
  else if st.isLoading then (st, none)
  else if st.backendOnline = some false then
    ({ st with
        error := some "Backend is offline. Start the API on the backend and reload this page." },
     none)
  else
    ({ st with
        messages := st.messages ++ [ChatMessage.mk "user" (jsTrim text)],
        isLoading := true, error := none },
     some (st.messages ++ [ChatMessage.mk "user" (jsTrim text)]))

/-- Embedded from `ChatPane` (handleSubmit): given the `disabled` and
`isLoading` props and the current input text, returns the message handed to
`onSendMessage` (or `none` on the early returns) together with the new value of
the input field. -/
def handleSubmit (disabled isLoading : Bool) (input : String) :
    Option String × String :=
  if disabled || isLoading then (none, input)
  else if jsTrim input = "" then (none, input)
  else (some (jsTrim input), "")

/-- Embedded from `frontend/src/components/GraphPanel.tsx`: a rendered graph
node as far as the size computation is concerned. -/
structure PanelNode where
  code : String
  label : String
  score : ℚ
  is_recommended : Bool
deriving DecidableEq

/-- Embedded from `frontend/src/components/GraphPanel.tsx`: the node list of
the GraphView prop. -/
structure PanelView where
  nodes : List PanelNode
deriving DecidableEq

/-- Embedded from `GraphPanel.tsx`: `graphView.nodes.map((n) => n.score)`. -/
def panelScores (gv : PanelView) : List ℚ := gv.nodes.map PanelNode.score

/-- Embedded from `GraphPanel.tsx`:
`const minScore = scores.length ? Math.min(...scores) : 0`. -/
def minScore (gv : PanelView) : ℚ :=
  match panelScores gv with
  | [] => 0
  | s :: ss => ss.foldl min s

/-- Embedded from `GraphPanel.tsx`:
`const maxScore = scores.length ? Math.max(...scores) : 1`. -/
def maxScore (gv : PanelView) : ℚ :=
  match panelScores gv with
  | [] => 1
  | s :: ss => ss.foldl max s

/-- Embedded from `GraphPanel.tsx` (scaleScore): when all scores coincide the
size is 3, otherwise `3 + t * 7` with `t = (score - minScore) / (maxScore -
minScore)`. -/
def scaleScore (gv : PanelView) (score : ℚ) : ℚ :=
  if maxScore gv = minScore gv then 3
  else 3 + (score - minScore gv) / (maxScore gv - minScore gv) * 7

/-- Embedded from `GraphPanel.tsx`: the `val` field attached to each rendered
node is `scaleScore(n.score)`. -/
def nodeVal (gv : PanelView) (n : PanelNode) : ℚ := scaleScore gv n.score

end Frontend

namespace Advisor

theorem mem_insertLe {le : α → α → Bool} {a x : α} {l : List α} :
    x ∈ insertLe le a l ↔ x = a ∨ x ∈ l := by
  induction l with
  | nil => simp [insertLe]
  | cons b bs ih =>
    by_cases h : le a b = true
    · simp [insertLe, h]
    · simp only [insertLe, h, if_neg, Bool.not_eq_true, List.mem_cons, ih]
      tauto

theorem mem_sortByLe {le : α → α → Bool} {x : α} {l : List α} :
    x ∈ sortByLe le l ↔ x ∈ l := by
  induction l with
  | nil => simp [sortByLe]
  | cons a as ih => simp [sortByLe, mem_insertLe, ih]

theorem perm_insertLe (le : α → α → Bool) (a : α) (l : List α) :
    List.Perm (insertLe le a l) (a :: l) := by
  induction l with
  | nil => simp [insertLe]
  | cons b bs ih =>
    simp only [insertLe]
    by_cases h : le a b = true
    · rw [if_pos h]
    · rw [if_neg h]
      exact ((ih.cons b).trans (List.Perm.swap a b bs))

theorem perm_sortByLe (le : α → α → Bool) (l : List α) :
    List.Perm (sortByLe le l) l := by
  induction l with
  | nil => simp [sortByLe]
  | cons a as ih => exact (perm_insertLe le a (sortByLe le as)).trans (ih.cons a)

theorem pairwise_insertLe {le : α → α → Bool}
    (htrans : ∀ a b c, le a b = true → le b c = true → le a c = true)
    (htotal : ∀ a b, le a b = true ∨ le b a = true)
    {a : α} {l : List α} (hl : l.Pairwise (fun x y => le x y = true)) :
    (insertLe le a l).Pairwise (fun x y => le x y = true) := by
  induction l with
  | nil => simp [insertLe]
  | cons b bs ih =>
    rcases List.pairwise_cons.mp hl with ⟨hb, hbs⟩
    simp only [insertLe]
    by_cases h : le a b = true
    · rw [if_pos h]
      refine List.pairwise_cons.mpr ⟨?_, hl⟩
      intro x hx
      rcases List.mem_cons.mp hx with rfl | hx
      · exact h
      · exact htrans a b x h (hb x hx)
    · rw [if_neg h]
      refine List.pairwise_cons.mpr ⟨?_, ih hbs⟩
      intro x hx
      rcases mem_insertLe.mp hx with rfl | hx
      · rcases htotal x b with h' | h'
        · exact absurd h' h
        · exact h'
      · exact hb x hx

theorem sorted_sortByLe {le : α → α → Bool}
    (htrans : ∀ a b c, le a b = true → le b c = true → le a c = true)
    (htotal : ∀ a b, le a b = true ∨ le b a = true)
    (l : List α) :
    (sortByLe le l).Pairwise (fun x y => le x y = true) := by
  induction l with
  | nil => simp [sortByLe]
  | cons a as ih => exact pairwise_insertLe htrans htotal ih

theorem mem_orderedPairs {l : List α} {p : α × α} (hp : p ∈ orderedPairs l) :
    p.1 ∈ l ∧ p.2 ∈ l := by
  induction l with
  | nil => simp [orderedPairs] at hp
  | cons x xs ih =>
    simp only [orderedPairs, List.mem_append, List.mem_map] at hp
    rcases hp with ⟨y, hy, rfl⟩ | hp
    · exact ⟨List.mem_cons_self x xs, List.mem_cons_of_mem x hy⟩
    · exact ⟨List.mem_cons_of_mem x (ih hp).1, List.mem_cons_of_mem x (ih hp).2⟩

theorem orderedPairs_rel {R : α → α → Prop} {l : List α}
    (hl : l.Pairwise R) {p : α × α} (hp : p ∈ orderedPairs l) : R p.1 p.2 := by
  induction l with
  | nil => simp [orderedPairs] at hp
  | cons x xs ih =>
    rcases List.pairwise_cons.mp hl with ⟨hx, hxs⟩
    simp only [orderedPairs, List.mem_append, List.mem_map] at hp
    rcases hp with ⟨y, hy, rfl⟩ | hp
    · exact hx y hy
    · exact ih hxs hp

theorem rankLe_iff {a b : RankedCourse} :
    rankLe a b = true ↔ b.score < a.score ∨ (a.score = b.score ∧ a.code ≤ b.code) := by
  simp [rankLe]

theorem rankLe_trans (a b c : RankedCourse)
    (hab : rankLe a b = true) (hbc : rankLe b c = true) : rankLe a c = true := by
  rcases rankLe_iff.mp hab with h1 | ⟨h1, h1c⟩
  · rcases rankLe_iff.mp hbc with h2 | ⟨h2, _⟩
    · exact rankLe_iff.mpr (Or.inl (h2.trans h1))
    · exact rankLe_iff.mpr (Or.inl (h2 ▸ h1))
  · rcases rankLe_iff.mp hbc with h2 | ⟨h2, h2c⟩
    · exact rankLe_iff.mpr (Or.inl (h1 ▸ h2))
    · exact rankLe_iff.mpr (Or.inr ⟨h1.trans h2, h1c.trans h2c⟩)

theorem rankLe_total (a b : RankedCourse) :
    rankLe a b = true ∨ rankLe b a = true := by
  rcases lt_trichotomy a.score b.score with h | h | h
  · exact Or.inr (rankLe_iff.mpr (Or.inl h))
  · rcases le_total a.code b.code with hc | hc
    · exact Or.inl (rankLe_iff.mpr (Or.inr ⟨h, hc⟩))
    · exact Or.inr (rankLe_iff.mpr (Or.inr ⟨h.symm, hc⟩))
  · exact Or.inl (rankLe_iff.mpr (Or.inl h))

theorem mem_rank {p : StudentProfile} {g : Graph} {topK : Nat} {rc : RankedCourse}
    (h : rc ∈ rank p g topK) :
    ∃ c ∈ g.courses, decide (c.code ∉ p.disliked_courses) = true ∧
      rc = mkRanked c (pageRank g (seedVec p g) c.code) := by
  have h1 : rc ∈ sortByLe rankLe
      ((g.courses.filter (fun c => decide (c.code ∉ p.disliked_courses))).map
        (fun c => mkRanked c (pageRank g (seedVec p g) c.code))) :=
    List.mem_of_mem_take h
  rcases List.mem_map.mp (mem_sortByLe.mp h1) with ⟨c, hc, rfl⟩
  rcases List.mem_filter.mp hc with ⟨hmem, hpass⟩
  exact ⟨c, hmem, hpass, rfl⟩

theorem pairwise_orderedPairs {β : Type} [LinearOrder β] (f : α → β) {l : List α}
    (hl : l.Pairwise (fun x y => f x < f y)) :
    (orderedPairs l).Pairwise (fun p q => f p.1 ≠ f q.1 ∨ f p.2 ≠ f q.2) := by
  induction l with
  | nil => simp [orderedPairs]
  | cons x xs ih =>
    rcases List.pairwise_cons.mp hl with ⟨hx, hxs⟩
    refine List.pairwise_append.mpr ⟨?_, ih hxs, ?_⟩
    · refine List.pairwise_map.mpr (hxs.imp ?_)
      intro a b hab
      exact Or.inr (ne_of_lt hab)
    · intro p hp q hq
      rcases List.mem_map.mp hp with ⟨y, _, rfl⟩
      have h1 : q.1 ∈ xs := (mem_orderedPairs hq).1
      exact Or.inl (ne_of_lt (hx q.1 h1))

end Advisor

namespace Advisor

/-- Concrete one-course catalogue entry used by the witnesses. -/
def cW : Course := ⟨"C1", "Course One", 5, 1, "EN", "G", ["ml"]⟩

/-- Concrete one-course, zero-edge graph used by the witnesses. -/
def gW : Graph := ⟨[cW], []⟩

/-- Concrete empty profile used by the witnesses. -/
def pW : StudentProfile := {}

/-- The ranked course produced for `cW` by `rank pW gW 1`. -/
def topW : RankedCourse := ⟨"C1", "Course One", 5, 1, "EN", "G", 3 / 20⟩

/-- C1: for every student profile, graph and topK, `rank` returns at most topK
entries, every returned code is a course code of the catalogue, and the
entries are ordered by descending score with ties broken by ascending course
code. -/
theorem C1_rank_output_shape (p : StudentProfile) (g : Graph) (topK : Nat) :
    (rank p g topK).length ≤ topK
    ∧ ((rank p g topK).map RankedCourse.code) ⊆ (g.courses.map Course.code)
    ∧ (rank p g topK).Pairwise
        (fun a b => b.score < a.score ∨ (a.score = b.score ∧ a.code ≤ b.code)) := by
  refine ⟨?_, ?_, ?_⟩
  · unfold rank
    exact List.length_take_le _ _
  · intro x hx
    rcases List.mem_map.mp hx with ⟨rc, hrc, rfl⟩
    rcases mem_rank hrc with ⟨c, hcmem, _, rfl⟩
    exact List.mem_map.mpr ⟨c, hcmem, rfl⟩
  · have hs := sorted_sortByLe rankLe_trans rankLe_total
      ((g.courses.filter (fun c => decide (c.code ∉ p.disliked_courses))).map
        (fun c => mkRanked c (pageRank g (seedVec p g) c.code)))
    have ht : (rank p g topK).Pairwise (fun a b => rankLe a b = true) :=
      List.Pairwise.sublist (by unfold rank; exact List.take_sublist _ _) hs
    exact ht.imp (fun h => rankLe_iff.mp h)

/-- C3: `rank` is deterministic — two calls with identical profile, graph and
topK return identical ordered lists, including the order of tied entries. -/
theorem C3_rank_deterministic (p1 p2 : StudentProfile) (g1 g2 : Graph)
    (k1 k2 : Nat) (hp : p1 = p2) (hg : g1 = g2) (hk : k1 = k2) :
    rank p1 g1 k1 = rank p2 g2 k2 := by
  subst hp; subst hg; subst hk; rfl

/-- Witness for C3 at a concrete profile, graph and topK. -/
theorem C3_rank_deterministic_witness :
    (pW = pW) ∧ (gW = gW) ∧ ((1 : Nat) = 1) ∧ rank pW gW 1 = rank pW gW 1 :=
  ⟨rfl, rfl, rfl, C3_rank_deterministic pW pW gW gW 1 1 rfl rfl rfl⟩

/-- C5: the node set of the GraphView projected from a ranking result contains
every course code of the top-K ranked list. -/
theorem C5_project_nodes_contain_topK (p : StudentProfile) (g : Graph) (topK : Nat) :
    ((rank p g topK).map RankedCourse.code) ⊆
      ((project g (rank p g topK) topK).nodes.map ViewNode.code) := by
  intro x hx
  have htake : (rank p g topK).take topK = rank p g topK :=
    List.take_of_length_le (by unfold rank; exact List.length_take_le _ _)
  show x ∈ (projectNodes g (rank p g topK) topK).map ViewNode.code
  unfold projectNodes
  rw [List.map_append, List.map_map]
  apply List.mem_append_left
  rw [htake]
  exact hx

/-- C6: in every GraphView produced by `project`, each edge's source and
target are codes of nodes of the same view (no dangling endpoints). -/
theorem C6_view_edges_closed (g : Graph) (ranked : List RankedCourse) (topK : Nat) :
    ∀ e ∈ (project g ranked topK).edges,
      e.source ∈ ((project g ranked topK).nodes.map ViewNode.code)
      ∧ e.target ∈ ((project g ranked topK).nodes.map ViewNode.code) := by
  intro e he
  simp only [project, projectEdges] at he
  rcases List.mem_map.mp he with ⟨e0, he0, rfl⟩
  rcases List.mem_filter.mp he0 with ⟨_, hpass⟩
  simp only [Bool.and_eq_true, decide_eq_true_eq] at hpass
  exact ⟨hpass.1, hpass.2⟩

/-- Concrete second course used by the projector witnesses. -/
def cB : Course := ⟨"B", "Course B", 5, 1, "EN", "G", ["ml"]⟩

/-- Concrete course A used by the projector witnesses. -/
def cA : Course := ⟨"A", "Course A", 5, 1, "EN", "G", ["ml"]⟩

/-- Concrete edge between the two witness courses. -/
def eAB : Edge := ⟨"A", "B", 1, [⟨"same_group", "G", 1⟩]⟩

/-- Concrete two-course, one-edge graph used by the projector witnesses. -/
def gW2 : Graph := ⟨[cA, cB], [eAB]⟩

/-- Concrete one-entry ranking result used by the projector witnesses. -/
def rankedW : List RankedCourse := [mkRanked cA 1]

/-- The view edge produced for `eAB` by `project gW2 rankedW 1`. -/
def eVW : ViewEdge := ⟨"A", "B", 1, ["G"], [⟨"same_group", "G", 1⟩]⟩

/-- Witness for C6 at a concrete graph, ranking result and edge. -/
theorem C6_view_edges_closed_witness :
    eVW ∈ (project gW2 rankedW 1).edges
    ∧ (eVW.source ∈ ((project gW2 rankedW 1).nodes.map ViewNode.code)
        ∧ eVW.target ∈ ((project gW2 rankedW 1).nodes.map ViewNode.code)) :=
  have hmem : eVW ∈ (project gW2 rankedW 1).edges :=
    of_decide_eq_true (by with_unfolding_all rfl)
  ⟨hmem, C6_view_edges_closed gW2 rankedW 1 eVW hmem⟩

/-- C8: re-running `rank` with the same profile extended by a
`disliked_courses` entry equal to the previously top-ranked course code
removes that course from the result (the modelled policy excludes disliked
courses outright, so in particular it is no longer first). -/
theorem C8_dislike_top_excluded (p : StudentProfile) (g : Graph) (topK : Nat)
    (top : RankedCourse) (h : (rank p g topK).head? = some top) :
    top.code ∉
      ((rank { p with disliked_courses := top.code :: p.disliked_courses } g topK).map
        RankedCourse.code) := by
  intro hmem
  rcases List.mem_map.mp hmem with ⟨rc, hrc, hcode⟩
  rcases mem_rank hrc with ⟨c, _, hpass, rfl⟩
  have hnotin : c.code ∉ top.code :: p.disliked_courses := of_decide_eq_true hpass
  have hc : c.code = top.code := hcode
  exact hnotin (hc ▸ List.mem_cons_self _ _)

/-- Witness for C8 at a concrete profile and graph. -/
theorem C8_dislike_top_excluded_witness :
    (rank pW gW 1).head? = some topW
    ∧ topW.code ∉
        ((rank { pW with disliked_courses := topW.code :: pW.disliked_courses } gW 1).map
          RankedCourse.code) :=
  have hW : (rank pW gW 1).head? = some topW := by with_unfolding_all rfl
  ⟨hW, C8_dislike_top_excluded pW gW 1 topW hW⟩

end Advisor

namespace Advisor

theorem seedRaw_empty (p : StudentProfile) (c : Course)
    (h1 : p.interests = []) (h2 : p.avoid = []) (h3 : p.goals = [])
    (h4 : p.language_preference = none) (h5 : p.workload_tolerance = none)
    (h7 : p.liked_courses = []) :
    seedRaw p c = 0 := by
  simp [seedRaw, overlapCount, h1, h2, h3, h4, h5, h7]

theorem seedVec_empty (p : StudentProfile) (g : Graph)
    (h1 : p.interests = []) (h2 : p.avoid = []) (h3 : p.goals = [])
    (h4 : p.language_preference = none) (h5 : p.workload_tolerance = none)
    (h7 : p.liked_courses = []) :
    seedVec p g = uniformSeed g := by
  have htotal : seedTotal p g = 0 := by
    rw [seedTotal]
    apply List.sum_eq_zero
    intro x hx
    rcases List.mem_map.mp hx with ⟨c, _, rfl⟩
    exact seedRaw_empty p c h1 h2 h3 h4 h5 h7
  rw [seedVec, if_pos htotal]

/-- C4: for an empty student profile (no interests, goals, avoid entries,
liked or disliked courses, and no preference fields populated), `rank`
produces exactly the plain unpersonalized PageRank ordering of the graph. -/
theorem C4_rank_empty_profile_plain (p : StudentProfile) (g : Graph) (topK : Nat)
    (h1 : p.interests = []) (h2 : p.avoid = []) (h3 : p.goals = [])
    (h4 : p.language_preference = none) (h5 : p.workload_tolerance = none)
    (h6 : p.preferred_exam_types = []) (h7 : p.liked_courses = [])
    (h8 : p.disliked_courses = []) :
    rank p g topK = (plainPageRankRanking g).take topK := by
  have hfilter :
      g.courses.filter (fun c => decide (c.code ∉ p.disliked_courses)) = g.courses := by
    apply List.filter_eq_self.mpr
    intro a _
    simp [h8]
  rw [rank, hfilter, seedVec_empty p g h1 h2 h3 h4 h5 h7, plainPageRankRanking]

/-- Witness for C4 at a concrete empty profile and graph. -/
theorem C4_rank_empty_profile_plain_witness :
    pW.interests = [] ∧ pW.avoid = [] ∧ pW.goals = []
    ∧ pW.language_preference = none ∧ pW.workload_tolerance = none
    ∧ pW.preferred_exam_types = [] ∧ pW.liked_courses = []
    ∧ pW.disliked_courses = []
    ∧ rank pW gW 2 = (plainPageRankRanking gW).take 2 :=
  ⟨rfl, rfl, rfl, rfl, rfl, rfl, rfl, rfl,
   C4_rank_empty_profile_plain pW gW 2 rfl rfl rfl rfl rfl rfl rfl rfl⟩

end Advisor

namespace Advisor

theorem signals_nonneg (c1 c2 : Course) :
    ∀ r ∈ signals c1 c2, 0 ≤ r.contribution := by
  intro r hr
  simp only [signals, List.mem_append] at hr
  rcases hr with ((h | h) | h) | h
  · split at h
    · simp at h
    · rw [List.mem_singleton] at h
      subst h
      simp only [keywordUnit]
      positivity
  · split at h
    · rw [List.mem_singleton] at h
      subst h
      norm_num
    · simp at h
  · split at h
    · rw [List.mem_singleton] at h
      subst h
      norm_num
    · simp at h
  · split at h
    · rw [List.mem_singleton] at h
      subst h
      norm_num
    · simp at h

theorem edgeWeight_nonneg (rs : List EdgeReason)
    (h : ∀ r ∈ rs, 0 ≤ r.contribution) : 0 ≤ edgeWeight rs := by
  unfold edgeWeight
  have hs : 0 ≤ (rs.map EdgeReason.contribution).sum := by
    apply List.sum_nonneg
    intro x hx
    rcases List.mem_map.mp hx with ⟨r, hr, rfl⟩
    exact h r hr
  split
  · norm_num
  · exact hs

theorem edgeWeight_le_one (rs : List EdgeReason) : edgeWeight rs ≤ 1 := by
  unfold edgeWeight
  split
  · exact le_refl 1
  · linarith [lt_of_not_le (by assumption :
      ¬(1 ≤ (rs.map EdgeReason.contribution).sum))]

theorem pairEdge_some {pr : Course × Course} {e : Edge}
    (h : pairEdge pr = some e) :
    e.a = pr.1.code ∧ e.b = pr.2.code ∧ e.reasons = signals pr.1 pr.2
    ∧ e.weight = edgeWeight (signals pr.1 pr.2) := by
  unfold pairEdge at h
  split at h
  · exact absurd h (by simp)
  · injection h with h'
    subst h'
    exact ⟨rfl, rfl, rfl, rfl⟩

theorem sorted_strict (courses : List Course)
    (h : (courses.map Course.code).Nodup) :
    (sortByLe codeLe courses).Pairwise (fun c1 c2 => c1.code < c2.code) := by
  have htrans : ∀ a b c : Course, codeLe a b = true → codeLe b c = true →
      codeLe a c = true := by
    intro a b c hab hbc
    simp only [codeLe, decide_eq_true_eq] at *
    exact le_trans hab hbc
  have htotal : ∀ a b : Course, codeLe a b = true ∨ codeLe b a = true := by
    intro a b
    simp only [codeLe, decide_eq_true_eq]
    exact le_total a.code b.code
  have hs := sorted_sortByLe htrans htotal courses
  have hperm := (perm_sortByLe codeLe courses).map Course.code
  have hnd : ((sortByLe codeLe courses).map Course.code).Nodup :=
    hperm.nodup_iff.mpr h
  have hne : (sortByLe codeLe courses).Pairwise (fun a b => a.code ≠ b.code) :=
    List.pairwise_map.mp hnd
  exact (hs.and hne).imp
    (fun hab => lt_of_le_of_ne (of_decide_eq_true hab.1) hab.2)

end Advisor

namespace Advisor

/-- C7: every graph returned by `buildGraph` (on a catalogue with unique
course codes, the data-model invariant) has no self-loop edges, at most one
edge per unordered pair of course codes, and every edge weight in [0,1]; the
weight of each edge is exactly the aggregation (clipped sum) of its reason
list's contributions. -/
theorem C7_buildGraph_edge_invariants (courses : List Course)
    (h : (courses.map Course.code).Nodup) :
    (∀ e ∈ (buildGraph courses).edges, e.a ≠ e.b)
    ∧ (buildGraph courses).edges.Pairwise (fun e1 e2 =>
        ¬((e1.a = e2.a ∧ e1.b = e2.b) ∨ (e1.a = e2.b ∧ e1.b = e2.a)))
    ∧ (∀ e ∈ (buildGraph courses).edges,
        0 ≤ e.weight ∧ e.weight ≤ 1 ∧ e.weight = edgeWeight e.reasons) := by
  have hstrict := sorted_strict courses h
  have hasc : ∀ p ∈ orderedPairs (sortByLe codeLe courses), p.1.code < p.2.code :=
    fun p hp => orderedPairs_rel hstrict hp
  refine ⟨?_, ?_, ?_⟩
  · intro e he
    simp only [buildGraph] at he
    rcases List.mem_filterMap.mp he with ⟨pr, hpr, hsome⟩
    rcases pairEdge_some hsome with ⟨ha, hb, _, _⟩
    rw [ha, hb]
    exact ne_of_lt (hasc pr hpr)
  · simp only [buildGraph]
    have hQ := pairwise_orderedPairs Course.code hstrict
    have hS : (orderedPairs (sortByLe codeLe courses)).Pairwise
        (fun p q => (p.1.code ≠ q.1.code ∨ p.2.code ≠ q.2.code)
          ∧ p.1.code < p.2.code ∧ q.1.code < q.2.code) :=
      hQ.imp_of_mem (fun hp hq hpq => ⟨hpq, hasc _ hp, hasc _ hq⟩)
    refine List.Pairwise.filterMap pairEdge ?_ hS
    intro p q hpq e1 he1 e2 he2
    rcases pairEdge_some (Option.mem_def.mp he1) with ⟨ha1, hb1, _, _⟩
    rcases pairEdge_some (Option.mem_def.mp he2) with ⟨ha2, hb2, _, _⟩
    rcases hpq with ⟨hne, hp, hq⟩
    rw [ha1, hb1, ha2, hb2]
    rintro (⟨u, v⟩ | ⟨u, v⟩)
    · rcases hne with hn | hn
      · exact hn u
      · exact hn v
    · have h1 : p.1.code < q.1.code := v ▸ hp
      have h2 : p.1.code < q.2.code := h1.trans hq
      exact lt_irrefl _ (u ▸ h2)
  · intro e he
    simp only [buildGraph] at he
    rcases List.mem_filterMap.mp he with ⟨pr, hpr, hsome⟩
    rcases pairEdge_some hsome with ⟨_, _, hrs, hw⟩
    refine ⟨?_, ?_, ?_⟩
    · rw [hw]
      exact edgeWeight_nonneg _ (signals_nonneg pr.1 pr.2)
    · rw [hw]
      exact edgeWeight_le_one _
    · rw [hw, hrs]

/-- Witness for C7 at a concrete two-course catalogue with distinct codes. -/
theorem C7_buildGraph_edge_invariants_witness :
    (([cA, cB].map Course.code).Nodup)
    ∧ ((∀ e ∈ (buildGraph [cA, cB]).edges, e.a ≠ e.b)
      ∧ (buildGraph [cA, cB]).edges.Pairwise (fun e1 e2 =>
          ¬((e1.a = e2.a ∧ e1.b = e2.b) ∨ (e1.a = e2.b ∧ e1.b = e2.a)))
      ∧ (∀ e ∈ (buildGraph [cA, cB]).edges,
          0 ≤ e.weight ∧ e.weight ≤ 1 ∧ e.weight = edgeWeight e.reasons)) :=
  have hnd : (([cA, cB].map Course.code).Nodup) :=
    of_decide_eq_true (by with_unfolding_all rfl)
  ⟨hnd, C7_buildGraph_edge_invariants [cA, cB] hnd⟩

end Advisor

namespace Frontend

theorem foldl_min_le_init (l : List ℚ) (a : ℚ) : l.foldl min a ≤ a := by
  induction l generalizing a with
  | nil => exact le_refl a
  | cons b t ih => exact le_trans (ih (min a b)) (min_le_left a b)

theorem foldl_min_le_mem {l : List ℚ} {x : ℚ} (a : ℚ) (h : x ∈ l) :
    l.foldl min a ≤ x := by
  induction l generalizing a with
  | nil => cases h
  | cons b t ih =>
    rcases List.mem_cons.mp h with rfl | hx
    · exact le_trans (foldl_min_le_init t (min a x)) (min_le_right a x)
    · exact ih (min a b) hx

theorem init_le_foldl_max (l : List ℚ) (a : ℚ) : a ≤ l.foldl max a := by
  induction l generalizing a with
  | nil => exact le_refl a
  | cons b t ih => exact le_trans (le_max_left a b) (ih (max a b))

theorem mem_le_foldl_max {l : List ℚ} {x : ℚ} (a : ℚ) (h : x ∈ l) :
    x ≤ l.foldl max a := by
  induction l generalizing a with
  | nil => cases h
  | cons b t ih =>
    rcases List.mem_cons.mp h with rfl | hx
    · exact le_trans (le_max_right a x) (init_le_foldl_max t (max a x))
    · exact ih (max a b) hx

theorem minScore_le {gv : PanelView} {n : PanelNode} (hn : n ∈ gv.nodes) :
    minScore gv ≤ n.score := by
  have hmem : n.score ∈ panelScores gv := List.mem_map_of_mem PanelNode.score hn
  cases hl : panelScores gv with
  | nil => rw [hl] at hmem; cases hmem
  | cons s ss =>
    rw [hl] at hmem
    simp only [minScore, hl]
    rcases List.mem_cons.mp hmem with heq | hx
    · rw [heq]; exact foldl_min_le_init ss s
    · exact foldl_min_le_mem s hx

theorem le_maxScore {gv : PanelView} {n : PanelNode} (hn : n ∈ gv.nodes) :
    n.score ≤ maxScore gv := by
  have hmem : n.score ∈ panelScores gv := List.mem_map_of_mem PanelNode.score hn
  cases hl : panelScores gv with
  | nil => rw [hl] at hmem; cases hmem
  | cons s ss =>
    rw [hl] at hmem
    simp only [maxScore, hl]
    rcases List.mem_cons.mp hmem with heq | hx
    · rw [heq]; exact init_le_foldl_max ss s
    · exact mem_le_foldl_max s hx

theorem minScore_le_maxScore {gv : PanelView} (hne : gv.nodes ≠ []) :
    minScore gv ≤ maxScore gv := by
  cases hl : gv.nodes with
  | nil => exact absurd hl hne
  | cons n ns =>
    have hn : n ∈ gv.nodes := by rw [hl]; exact List.mem_cons_self n ns
    exact le_trans (minScore_le hn) (le_maxScore hn)

/-- C9: in `GraphPanel`, for every non-empty view each node's size value is 3
when the maximum and minimum scores coincide and otherwise
`3 + 7 * (score - minScore) / (maxScore - minScore)`; consequently every size
value lies in [3, 10] and is monotone non-decreasing in the node's score. -/
theorem C9_scaleScore_bounds (gv : PanelView) (hne : gv.nodes ≠ []) :
    (∀ n ∈ gv.nodes,
      (maxScore gv = minScore gv → nodeVal gv n = 3)
      ∧ (maxScore gv ≠ minScore gv →
          nodeVal gv n
            = 3 + 7 * ((n.score - minScore gv) / (maxScore gv - minScore gv)))
      ∧ 3 ≤ nodeVal gv n ∧ nodeVal gv n ≤ 10)
    ∧ ∀ n ∈ gv.nodes, ∀ m ∈ gv.nodes, n.score ≤ m.score →
        nodeVal gv n ≤ nodeVal gv m := by
  constructor
  · intro n hn
    refine ⟨?_, ?_, ?_, ?_⟩
    · intro he
      simp [nodeVal, scaleScore, he]
    · intro hne2
      simp only [nodeVal, scaleScore, if_neg hne2]
      ring
    · by_cases he : maxScore gv = minScore gv
      · simp [nodeVal, scaleScore, he]
      · have hlt : minScore gv < maxScore gv :=
          lt_of_le_of_ne (minScore_le_maxScore hne) (fun hc => he hc.symm)
        have hD : 0 < maxScore gv - minScore gv := sub_pos.mpr hlt
        have h1 : 0 ≤ (n.score - minScore gv) / (maxScore gv - minScore gv) :=
          div_nonneg (sub_nonneg.mpr (minScore_le hn)) hD.le
        simp only [nodeVal, scaleScore, if_neg he]
        linarith
    · by_cases he : maxScore gv = minScore gv
      · simp only [nodeVal, scaleScore, if_pos he]
        norm_num
      · have hlt : minScore gv < maxScore gv :=
          lt_of_le_of_ne (minScore_le_maxScore hne) (fun hc => he hc.symm)
        have hD : 0 < maxScore gv - minScore gv := sub_pos.mpr hlt
        have h1 : (n.score - minScore gv) / (maxScore gv - minScore gv) ≤ 1 :=
          (div_le_one hD).mpr (by linarith [le_maxScore hn])
        simp only [nodeVal, scaleScore, if_neg he]
        linarith
  · intro n hn m hm hle
    by_cases he : maxScore gv = minScore gv
    · simp [nodeVal, scaleScore, he]
    · have hlt : minScore gv < maxScore gv :=
        lt_of_le_of_ne (minScore_le_maxScore hne) (fun hc => he hc.symm)
      have hD : 0 < maxScore gv - minScore gv := sub_pos.mpr hlt
      have hdiv : (n.score - minScore gv) / (maxScore gv - minScore gv)
          ≤ (m.score - minScore gv) / (maxScore gv - minScore gv) := by
        gcongr
      simp only [nodeVal, scaleScore, if_neg he]
      linarith

/-- Concrete two-node panel view used by the C9 witness. -/
def gvW : PanelView := ⟨[⟨"A", "Course A", 1, true⟩, ⟨"B", "Course B", 2, false⟩]⟩

/-- Witness for C9 at a concrete non-empty view. -/
theorem C9_scaleScore_bounds_witness :
    gvW.nodes ≠ []
    ∧ ((∀ n ∈ gvW.nodes,
        (maxScore gvW = minScore gvW → nodeVal gvW n = 3)
        ∧ (maxScore gvW ≠ minScore gvW →
            nodeVal gvW n
              = 3 + 7 * ((n.score - minScore gvW) / (maxScore gvW - minScore gvW)))
        ∧ 3 ≤ nodeVal gvW n ∧ nodeVal gvW n ≤ 10)
      ∧ ∀ n ∈ gvW.nodes, ∀ m ∈ gvW.nodes, n.score ≤ m.score →
          nodeVal gvW n ≤ nodeVal gvW m) :=
  have hne : gvW.nodes ≠ [] := by simp [gvW]
  ⟨hne, C9_scaleScore_bounds gvW hne⟩

/-- C10: for every input whose trimmed form is empty, the chat send path is a
no-op — `ChatPane.handleSubmit` and `App.handleSendMessage` return early, no
chat request is issued, and the message list state is unchanged. -/
theorem C10_empty_input_noop (input : String) (h : jsTrim input = "")
    (disabled isLoading : Bool) (st : AppState) :
    handleSubmit disabled isLoading input = (none, input)
    ∧ handleSendMessage st input = (st, none) := by
  constructor
  · unfold handleSubmit
    by_cases hd : (disabled || isLoading) = true
    · rw [if_pos hd]
    · rw [if_neg hd, if_pos h]
  · unfold handleSendMessage
    rw [if_pos h]

/-- Concrete component state used by the C10 witness. -/
def stW : AppState := ⟨[⟨"assistant", "Hi!"⟩], false, none, none⟩

/-- Witness for C10 at a concrete whitespace-only input. -/
theorem C10_empty_input_noop_witness :
    jsTrim "  " = ""
    ∧ (handleSubmit false false "  " = (none, "  ")
       ∧ handleSendMessage stW "  " = (stW, none)) :=
  have h : jsTrim "  " = "" := by with_unfolding_all rfl
  ⟨h, C10_empty_input_noop "  " h false false stW⟩

end Frontend

namespace Wire

/-- C2 (divergence evidence): in the declared wire types, RankedCourse carries
exactly the fields code, name, cfu, semester, language, group, score,
explanation, GraphNode carries {code, label, score, is_recommended, group} and
GraphEdge carries {source, target, weight, concepts, reasons} — but the
declared element type of `reasons` is a plain string, not the record
`{type, value, contribution}` that the claim (and `GraphPanel`'s
ExtendedGraphLink, which reads r.type, r.value and r.contribution from every
incoming reason) requires. -/
theorem C2_wire_reasons_divergence :
    lookupField "reasons" graphEdgeFields = some (WireTy.arr WireTy.str)
    ∧ extendedLinkReasonTy
        = WireTy.record [("type", WireTy.str), ("value", WireTy.str),
                         ("contribution", WireTy.num)]
    ∧ WireTy.str ≠ extendedLinkReasonTy
    ∧ rankedCourseFields.map Prod.fst
        = ["code", "name", "cfu", "semester", "language", "group", "score",
           "explanation"]
    ∧ graphNodeFields.map Prod.fst
        = ["code", "label", "score", "is_recommended", "group"]
    ∧ graphEdgeFields.map Prod.fst
        = ["source", "target", "weight", "concepts", "reasons"] := by
  refine ⟨rfl, rfl, ?_, rfl, rfl, rfl⟩
  intro hcon
  exact WireTy.noConfusion hcon

end Wire
